import Mathlib

/- Verification of the Gicisky BLE e-paper tag integration
   (`custom_components/gicisky`): a shallow embedding of the device registry,
   image codec, packet builder, transfer state machine, transport adapter,
   retry shell and advertisement battery parsing, together with theorems
   about the embedded definitions.

   Machine integers are modelled as `Nat` (Python ints are unbounded; byte
   values stay below 256 where the code guarantees it), Python floats as
   exact rationals `ℚ`, `bytes` values as `List ℕ`, and fallible or
   effectful steps as explicit outcome parameters. -/

namespace Gicisky

/-! ## Device registry (`gicisky_ble/devices.py`) -/

/-- `DeviceEntry` dataclass from `gicisky_ble/devices.py`.  Field defaults
match the dataclass defaults; voltages are exact rationals. -/
structure DeviceEntry where
  name : String
  model : String
  width : ℕ
  height : ℕ
  red : Bool := true
  tft : Bool := false
  mirror_x : Bool := false
  mirror_y : Bool := false
  rotation : ℕ := 0
  compression : Bool := false
  manufacturer : String := "Gicisky"
  max_voltage : ℚ := 29 / 10
  min_voltage : ℚ := 22 / 10

/-- `DEVICE_TYPES[0xA0]`. -/
def TFT21 : DeviceEntry :=
  { name := "TFT 21", model := "TFT 2.1\" BW", width := 250, height := 132,
    red := false, tft := true, rotation := 90, mirror_x := true }

/-- `DEVICE_TYPES[0x0B]`. -/
def EPD21 : DeviceEntry :=
  { name := "EPD 21", model := "EPD 2.1\" BWR", width := 250, height := 128,
    rotation := 270, mirror_x := true }

/-- `DEVICE_TYPES[0x33]`. -/
def EPD29 : DeviceEntry :=
  { name := "EPD 29", model := "EPD 2.9\" BWR", width := 296, height := 128,
    rotation := 90 }

/-- `DEVICE_TYPES[0x4B]`. -/
def EPD42 : DeviceEntry :=
  { name := "EPD 42", model := "EPD 4.2\" BWR", width := 400, height := 300,
    max_voltage := 3 }

/-- `DEVICE_TYPES[0x2B]`. -/
def EPD75 : DeviceEntry :=
  { name := "EPD 75", model := "EPD 7.5\" BWR", width := 800, height := 480,
    mirror_y := true, compression := true, max_voltage := 3 }

/-- The `DEVICE_TYPES` lookup table from `gicisky_ble/devices.py`, as a
partial lookup keyed by the one-byte device type code. -/
def DEVICE_TYPES (code : ℕ) : Option DeviceEntry :=
  if code = 0xA0 then some TFT21
  else if code = 0x0B then some EPD21
  else if code = 0x33 then some EPD29
  else if code = 0x4B then some EPD42
  else if code = 0x2B then some EPD75
  else none

/-! ## Retry shell (`__init__.py`, `writeservice`) -/

/-- The retry loop of `writeservice` (`__init__.py` lines 115-126):
`for attempt in range(1, max_retries + 1)`, `break` on success,
`await sleep(1)` after a failed attempt when `attempt < max_retries`, and
the for-`else` raising `HomeAssistantError` when no attempt succeeded.
`outcome n` abstracts the boolean result of the `update_image` call on
attempt `n`.  The result is (number of attempts performed, number of
one-second sleeps performed, success flag); a `false` flag means
`HomeAssistantError` was raised. -/
def retry_from (outcome : ℕ → Bool) (max_retries : ℕ) (attempt : ℕ) : ℕ × ℕ × Bool :=
  if max_retries < attempt then (0, 0, false)
  else if outcome attempt then (1, 0, true)
  else
    let r := retry_from outcome max_retries (attempt + 1)
    (r.1 + 1, r.2.1 + (if attempt < max_retries then 1 else 0), r.2.2)
termination_by max_retries + 1 - attempt
decreasing_by omega

/-- The retry shell as invoked: `max_retries = 3`, attempts numbered from 1. -/
def writeservice (outcome : ℕ → Bool) : ℕ × ℕ × Bool := retry_from outcome 3 1

/-! ## Transport adapter notification slot (`gicisky_ble/writer.py`) -/

/-- State of the notification mailbox of `GiciskyClient`: the single-slot
buffered notification `command_data` and the wakeup `event` flag. -/
structure Adapter where
  command_data : Option (List ℕ)
  event : Bool

/-- `_notification_handler` (writer.py lines 110-114): a payload is stored
only when the slot is empty (`if self.command_data == None`), and then the
event is set. -/
def notification_handler (s : Adapter) (data : List ℕ) : Adapter :=
  if s.command_data = none then { command_data := some data, event := true } else s

/-- The clear performed at the start of `write_with_response` (writer.py
lines 130-131): `self.command_data = None` and `self.event.clear()`. -/
def clear_before_write (_s : Adapter) : Adapter := { command_data := none, event := false }

/-- `read` (writer.py lines 116-127): wait for the event, then return
`self.command_data or b""`.  `none` models the `wait_for` timeout firing
because the event was never set. -/
def read_result (s : Adapter) : Option (List ℕ) :=
  if s.event then some (s.command_data.getD []) else none

/-- `write_with_response` (writer.py lines 129-133) as seen by the state
machine: clear the slot and event, perform the write, let the notifications
`ns` arrive in order, then `read`. -/
def write_with_response (s : Adapter) (ns : List (List ℕ)) : Option (List ℕ) :=
  read_result (ns.foldl notification_handler (clear_before_write s))

/-! ## Advertisement battery parsing (`gicisky_ble/parser.py`) -/

/-- Rounding to one decimal place, as Python `round(x, 1)`.  The rationals
reaching this function here have denominator 1 or 7 after scaling by 10, so
an exact tie (fractional part 1/2) can never occur and the tie-breaking
mode is immaterial. -/
def round1 (q : ℚ) : ℚ := (round (q * 10) : ℚ) / 10

/-- The battery computation of `_parse_gicisky` (`gicisky_ble/parser.py`
lines 1760-1795): a 5-byte manufacturer payload is required, the device
code `data[0]` is looked up in `DEVICE_TYPES` (unknown codes are rejected),
`volt = data[1] / 10`, and the reported percentage is
`round((volt - 2.2) * 100 / (2.9 - 2.2), 1)` with both voltage constants
written literally in the source. -/
def parse_gicisky_battery (data : List ℕ) : Option ℚ :=
  if data.length ≠ 5 then none
  else
    match DEVICE_TYPES (data.getD 0 0) with
    | none => none
    | some _device =>
      let volt : ℚ := (data.getD 1 0 : ℚ) / 10
      let batt : ℚ := (volt - 22 / 10) * 100 / (29 / 10 - 22 / 10)
      some (round1 batt)

/-- Modelled from the spec: the battery percentage formula
`(voltage − minVoltage) × 100 / (maxVoltage − minVoltage)` using the
looked-up descriptor's voltages. -/
def specBatteryPercentage (device : DeviceEntry) (volt : ℚ) : ℚ :=
  (volt - device.min_voltage) * 100 / (device.max_voltage - device.min_voltage)

/-- Claim C7 as stated: for every known device type code the reported
battery percentage is the descriptor-voltage formula (up to the reporting
rounding the parser applies). -/
def ClaimC7 : Prop :=
  ∀ (data : List ℕ) (device : DeviceEntry),
    data.length = 5 →
    DEVICE_TYPES (data.getD 0 0) = some device →
    parse_gicisky_battery data
      = some (round1 (specBatteryPercentage device ((data.getD 1 0 : ℚ) / 10)))

/-! ## Packet builder (`gicisky_ble/writer.py`) -/

/-- The 4 bytes written by `struct.pack_into("<I", ...)`: little-endian. -/
def toBytesLE4 (n : ℕ) : List ℕ :=
  [n % 256, n / 256 % 256, n / 256 ^ 2 % 256, n / 256 ^ 3 % 256]

/-- `int.from_bytes(bs, "little")`. -/
def fromBytesLE (bs : List ℕ) : ℕ := bs.foldr (fun b acc => b + 256 * acc) 0

/-- `GiciskyClient._make_cmd_packet` (writer.py lines 269-276): command
`0x02` is the 8-byte size packet (opcode, 4-byte LE size, 3 zero bytes);
every other command is the single opcode byte. -/
def make_cmd_packet (cmd : ℕ) (packet_size : ℕ) : List ℕ :=
  if cmd = 2 then 2 :: (toBytesLE4 packet_size ++ [0, 0, 0]) else [cmd]

/-- `GiciskyClient._make_img_packet` (writer.py lines 278-284):
`start = part * 240`, the chunk is
`image_packets[start : start + min(240, packet_size - start)]`, and the
packet is the 4-byte LE part index followed by the chunk. -/
def make_img_packet (packet_size : ℕ) (image_packets : List ℕ) (part : ℕ) : List ℕ :=
  let start := part * 240
  let chunk := (image_packets.drop start).take (min 240 (packet_size - start))
  toBytesLE4 part ++ chunk

/-! ## Image codec (`gicisky_ble/writer.py`, `get_pixel_data`) -/

/-- An RGB pixel as returned by `pixels[px]` on an image converted to RGB
mode: three integers in 0..255. -/
structure RGB where
  r : ℕ
  g : ℕ
  b : ℕ

/-- `luminance = 0.2126 * r + 0.7152 * g + 0.0722 * b` (writer.py line 219),
with the float coefficients as exact rationals. -/
def luminance (p : RGB) : ℚ :=
  (2126 / 10000 : ℚ) * p.r + (7152 / 10000 : ℚ) * p.g + (722 / 10000 : ℚ) * p.b

/-- `lum_threshold = 150` (writer.py line 190). -/
def lum_threshold : ℚ := 150

/-- `red_threshold = 150` (writer.py line 191). -/
def red_threshold : ℕ := 150

/-- The plane-0 condition `luminance > lum_threshold` (writer.py line 220). -/
def blackBit (p : RGB) : Bool := decide (lum_threshold < luminance p)

/-- The plane-1 condition `(r > red_threshold) and (g < red_threshold)`
(writer.py line 222). -/
def redBit (p : RGB) : Bool := decide (red_threshold < p.r ∧ p.g < red_threshold)

/-- The mutable state of the packing loop in `get_pixel_data` (writer.py
lines 206-231): the two byte lists, the two bytes being built, and
`bit_pos`.  In the source `bit_pos` is decremented and reset to 7 as soon
as it would become negative, so at the top of each iteration it lies in
0..7; the flush test `bit_pos - 1 < 0` is represented as `bit_pos = 0`. -/
@[ext]
structure PackState where
  byte_data : List ℕ
  byte_data_red : List ℕ
  current_byte : ℕ
  current_byte_red : ℕ
  bit_pos : ℕ

/-- One iteration of the pixel loop body (writer.py lines 214-231): OR the
bit into each byte being built when its condition holds, then either flush
both bytes (when the byte is complete) or move to the next bit position. -/
def pixelStep (s : PackState) (p : RGB) : PackState :=
  let current_byte :=
    if blackBit p then s.current_byte ||| (1 <<< s.bit_pos) else s.current_byte
  let current_byte_red :=
    if redBit p then s.current_byte_red ||| (1 <<< s.bit_pos) else s.current_byte_red
  if s.bit_pos = 0 then
    { byte_data := s.byte_data ++ [current_byte]
      byte_data_red := s.byte_data_red ++ [current_byte_red]
      current_byte := 0
      current_byte_red := 0
      bit_pos := 7 }
  else
    { s with
      current_byte := current_byte
      current_byte_red := current_byte_red
      bit_pos := s.bit_pos - 1 }

/-- The coordinates visited by the loop nest
`for x in range(width): for y in range(height)` with `px = (x, y)`
(writer.py lines 212-215; `rotation` and `tft` are hardcoded `False` in
the source, lines 192-193, so neither transform is applied). -/
def visitOrder (width height : ℕ) : List (ℕ × ℕ) :=
  (List.range width).flatMap fun x => (List.range height).map fun y => (x, y)

/-- The initial packing state (writer.py lines 206-210). -/
def initState : PackState := ⟨[], [], 0, 0, 7⟩

/-- The packing loop of `get_pixel_data` run over all visited pixels. -/
def encodeFold (device : DeviceEntry) (pixels : ℕ → ℕ → RGB) : PackState :=
  (visitOrder device.width device.height).foldl
    (fun s q => pixelStep s (pixels q.1 q.2)) initState

/-- Plane 0 (`byte_data`) after the final partial-byte flush
`if bit_pos != 7` (writer.py lines 234-236). -/
def plane0 (device : DeviceEntry) (pixels : ℕ → ℕ → RGB) : List ℕ :=
  if (encodeFold device pixels).bit_pos ≠ 7 then
    (encodeFold device pixels).byte_data ++ [(encodeFold device pixels).current_byte]
  else (encodeFold device pixels).byte_data

/-- Plane 1 (`byte_data_red`) after the final partial-byte flush. -/
def plane1 (device : DeviceEntry) (pixels : ℕ → ℕ → RGB) : List ℕ :=
  if (encodeFold device pixels).bit_pos ≠ 7 then
    (encodeFold device pixels).byte_data_red ++ [(encodeFold device pixels).current_byte_red]
  else (encodeFold device pixels).byte_data_red

/-- `get_pixel_data` (writer.py lines 189-243): the combined buffer is
`byte_data + byte_data_red` when the device supports red, else just
`byte_data`. -/
def get_pixel_data (device : DeviceEntry) (pixels : ℕ → ℕ → RGB) : List ℕ :=
  if device.red then plane0 device pixels ++ plane1 device pixels
  else plane0 device pixels

/-- `self.packet_size = (width * height) // 8 * (2 if red else 1)`
(writer.py line 88). -/
def packet_size (device : DeviceEntry) : ℕ :=
  device.width * device.height / 8 * (if device.red then 2 else 1)

/-! ### Independent description of MSB-first bit packing

The following functions are a standalone specification of MSB-first byte
packing, against which the accumulator loop above is proved correct. -/

/-- The value of a bit list read MSB-first. -/
def bitVal (bs : List Bool) : ℕ := bs.foldl (fun a b => 2 * a + b.toNat) 0

/-- A bit list of length at most 8 as one byte: MSB-first, zero-padded on
the low end. -/
def byteOfBits (bs : List Bool) : ℕ := bitVal bs <<< (8 - bs.length)

/-- MSB-first packing of a bit stream into bytes, 8 bits per byte, with a
zero-padded final partial byte. -/
def packBits : List Bool → List ℕ
  | [] => []
  | a1 :: a2 :: a3 :: a4 :: a5 :: a6 :: a7 :: a8 :: t =>
      byteOfBits [a1, a2, a3, a4, a5, a6, a7, a8] :: packBits t
  | bs => [byteOfBits bs]

/-- The bytes produced by the complete 8-bit groups only. -/
def packFull : List Bool → List ℕ
  | a1 :: a2 :: a3 :: a4 :: a5 :: a6 :: a7 :: a8 :: t =>
      byteOfBits [a1, a2, a3, a4, a5, a6, a7, a8] :: packFull t
  | _ => []

/-- The trailing bits that do not fill a complete 8-bit group. -/
def lastBits (bs : List Bool) : List Bool := bs.drop (8 * (bs.length / 8))

/-- The packing-loop state reached after consuming a list of
(plane-0 bit, plane-1 bit) pairs. -/
def packedState (bits : List (Bool × Bool)) : PackState :=
  { byte_data := packFull (bits.map Prod.fst)
    byte_data_red := packFull (bits.map Prod.snd)
    current_byte := byteOfBits (lastBits (bits.map Prod.fst))
    current_byte_red := byteOfBits (lastBits (bits.map Prod.snd))
    bit_pos := 7 - bits.length % 8 }

/-- Modelled from the spec: "Traversal order is row-major; if `mirrorX`,
columns are visited high-to-low within each row." -/
def specVisitOrder (device : DeviceEntry) : List (ℕ × ℕ) :=
  (List.range device.height).flatMap fun y =>
    (if device.mirror_x then (List.range device.width).reverse
     else List.range device.width).map fun x => (x, y)

/-- Claim C4 as stated: the encoder packs the pixel bits in row-major
order, with columns reversed within each row when `mirrorX` is set. -/
def ClaimC4 : Prop :=
  ∀ (device : DeviceEntry) (pixels : ℕ → ℕ → RGB),
    get_pixel_data device pixels
      = packBits ((specVisitOrder device).map fun q => blackBit (pixels q.1 q.2))
        ++ (if device.red then
              packBits ((specVisitOrder device).map fun q => redBit (pixels q.1 q.2))
            else [])

/-! ## Transfer state machine (`gicisky_ble/writer.py`, `write_image`) -/

/-- The two characteristics used by the protocol: `cmd_uuid` and `img_uuid`. -/
inductive Chan
  | cmd
  | img
deriving DecidableEq

/-- `GiciskyClient.Status` (writer.py lines 71-75). -/
inductive Phase
  | START
  | SIZE_DATA
  | IMAGE
  | IMAGE_DATA
deriving DecidableEq

/-- The `while True` loop of `write_image` (writer.py lines 147-186) run
against a script of device responses, one response consumed per
write-with-response; an exhausted script models the `read` timeout.
Returns the trace of packets sent (channel and bytes) and whether an
exception was raised inside the loop (`Packet Error` or timeout); the
exception is caught by `write_image` itself, so this flag never
propagates.  A malformed response in the `IMAGE_DATA` phase is a plain
`break`, not an error.  The device-reported index is parsed into `part`
(writer.py line 177) and carried along, exactly as in the source. -/
def write_image_loop (ps : ℕ) (imgp : List ℕ) :
    Phase → ℕ → ℕ → List (List ℕ) → List (Chan × List ℕ) × Bool
  | .START, _, _, [] => ([(Chan.cmd, make_cmd_packet 1 ps)], true)
  | .START, part, count, data :: rest =>
    if data.length < 3 ∨ data.getD 0 0 ≠ 0x01 ∨ data.getD 1 0 ≠ 0xF4 ∨ data.getD 2 0 ≠ 0x00 then
      ([(Chan.cmd, make_cmd_packet 1 ps)], true)
    else
      let r := write_image_loop ps imgp .SIZE_DATA part count rest
      ((Chan.cmd, make_cmd_packet 1 ps) :: r.1, r.2)
  | .SIZE_DATA, _, _, [] => ([(Chan.cmd, make_cmd_packet 2 ps)], true)
  | .SIZE_DATA, part, count, data :: rest =>
    if data.length < 1 ∨ data.getD 0 0 ≠ 0x02 then
      ([(Chan.cmd, make_cmd_packet 2 ps)], true)
    else
      let r := write_image_loop ps imgp .IMAGE part count rest
      ((Chan.cmd, make_cmd_packet 2 ps) :: r.1, r.2)
  | .IMAGE, _, _, [] => ([(Chan.cmd, make_cmd_packet 3 ps)], true)
  | .IMAGE, part, count, data :: rest =>
    if data.length < 6 ∨ data.getD 0 0 ≠ 0x05 ∨ data.getD 1 0 ≠ 0x00 then
      ([(Chan.cmd, make_cmd_packet 3 ps)], true)
    else
      let r := write_image_loop ps imgp .IMAGE_DATA part count rest
      ((Chan.cmd, make_cmd_packet 3 ps) :: r.1, r.2)
  | .IMAGE_DATA, _, count, [] => ([(Chan.img, make_img_packet ps imgp count)], true)
  | .IMAGE_DATA, _, count, data :: rest =>
    if data.length < 6 ∨ data.getD 0 0 ≠ 0x05 ∨ data.getD 1 0 ≠ 0x00 then
      ([(Chan.img, make_img_packet ps imgp count)], false)
    else
      let part2 := fromBytesLE ((data.drop 2).take 4)
      let r := write_image_loop ps imgp .IMAGE_DATA part2 (count + 1) rest
      ((Chan.img, make_img_packet ps imgp count) :: r.1, r.2)

/-- `write_image` (writer.py lines 147-152): `part = 0`, `count = 0`,
`status = START`. -/
def write_image_run (ps : ℕ) (imgp : List ℕ) (responses : List (List ℕ)) :
    List (Chan × List ℕ) × Bool :=
  write_image_loop ps imgp .START 0 0 responses

/-- The image-channel packets of a trace, in order. -/
def imgSent (tr : List (Chan × List ℕ)) : List (List ℕ) :=
  (tr.filter fun q => decide (q.1 = Chan.img)).map Prod.snd

/-- Claim C3 as stated: each image packet carries, as its 4-byte LE index,
the index found in bytes 2-5 of the device response that immediately
precedes it (packet `i + 1` is sent in reaction to response `i`). -/
def ClaimC3 : Prop :=
  ∀ (ps : ℕ) (imgp : List ℕ) (responses : List (List ℕ)) (i : ℕ) (pkt : List ℕ),
    ((write_image_run ps imgp responses).1[i + 1]?) = some (Chan.img, pkt) →
    pkt.take 4 = toBytesLE4 (fromBytesLE (((responses[i]?).getD []).drop 2 |>.take 4))

/-! ## `update_image` (`gicisky_ble/writer.py` lines 41-68) -/

/-- Outcomes of the effectful steps surrounding one transfer attempt:
whether `establish_connection` succeeds, how many characteristics the
Gicisky service exposes, whether `start_notify` / `stop_notify` succeed,
and the device's response script for the transfer itself. -/
structure Env where
  connect_ok : Bool
  n_chars : ℕ
  start_notify_ok : Bool
  stop_notify_ok : Bool
  responses : List (List ℕ)

/-- The failures that can escape the `try` body of `update_image`. -/
inductive BleFailure
  | serviceMissing
  | notifyStartFail
  | notifyStopFail

/-- The `try` body of `update_image` after a successful connection
(writer.py lines 49-62): require exactly 3 characteristics (else
`BleakServiceMissing`), `start_notify`, run the transfer (whose internal
errors `write_image` catches itself, so it returns normally regardless of
the trace outcome), then `stop_notify`. -/
def update_image_body (device : DeviceEntry) (pixels : ℕ → ℕ → RGB) (env : Env) :
    Except BleFailure Unit :=
  if env.n_chars = 3 then
    if env.start_notify_ok then
      let _run := write_image_run (packet_size device) (get_pixel_data device pixels)
        env.responses
      if env.stop_notify_ok then Except.ok () else Except.error .notifyStopFail
    else Except.error .notifyStartFail
  else Except.error .serviceMissing

/-- `update_image` (writer.py lines 41-68): connect (a failure leaves
`client = None`), run the body, catch every exception into a `False`
result, and in `finally` disconnect when still connected.  The result is
(returned boolean, whether the client is still connected on exit). -/
def update_image (device : DeviceEntry) (pixels : ℕ → ℕ → RGB) (env : Env) : Bool × Bool :=
  if env.connect_ok then
    let result :=
      match update_image_body device pixels env with
      | .ok _ => true
      | .error _ => false
    let connected_after_body := true
    (result, if connected_after_body then false else connected_after_body)
  else
    (false, false)

/-- Claim C1 as stated, at the Start phase instance the spec itself gives:
a Start response failing the prefix/length check leaves the machine in the
Start phase (only the start packet is ever sent) and makes the whole
attempt report failure. -/
def ClaimC1 : Prop :=
  ∀ (device : DeviceEntry) (pixels : ℕ → ℕ → RGB) (env : Env)
    (data : List ℕ) (rest : List (List ℕ)),
    env.responses = data :: rest →
    (data.length < 3 ∨ data.getD 0 0 ≠ 0x01 ∨ data.getD 1 0 ≠ 0xF4 ∨ data.getD 2 0 ≠ 0x00) →
    (write_image_run (packet_size device) (get_pixel_data device pixels) env.responses).1
        = [(Chan.cmd, make_cmd_packet 1 (packet_size device))]
    ∧ (update_image device pixels env).1 = false

/-- Claim C10's error clause as stated: an error during the transfer
(an exception raised inside the `write_image` loop) makes `update_image`
return `False`. -/
def ClaimC10 : Prop :=
  ∀ (device : DeviceEntry) (pixels : ℕ → ℕ → RGB) (env : Env),
    (write_image_run (packet_size device) (get_pixel_data device pixels) env.responses).2 = true →
    (update_image device pixels env).1 = false

/-! ## Concrete fixtures used by counterexamples and witnesses -/

/-- A 2-by-2 two-plane device used to instantiate the encoder. -/
def devTest : DeviceEntry := { name := "T", model := "T", width := 2, height := 2 }

/-- A 2-by-2 single-plane device with `mirror_x` set. -/
def devTestMirror : DeviceEntry :=
  { name := "T", model := "T", width := 2, height := 2, red := false, mirror_x := true }

/-- A pixel map that is white at (0, 0) and black elsewhere. -/
def pixWhite00 : ℕ → ℕ → RGB :=
  fun x y => if x = 0 ∧ y = 0 then ⟨255, 255, 255⟩ else ⟨0, 0, 0⟩

/-- A uniform dark red-dominant pixel map. -/
def pixDarkRed : ℕ → ℕ → RGB := fun _ _ => ⟨200, 10, 10⟩

/-! # Theorems -/

/-! ## C6: the retry shell -/

theorem writeservice_eval (o : ℕ → Bool) :
    writeservice o =
      if o 1 then (1, 0, true)
      else if o 2 then (2, 1, true)
      else if o 3 then (3, 2, true)
      else (3, 2, false) := by
  rcases h1 : o 1 <;> rcases h2 : o 2 <;> rcases h3 : o 3 <;>
    simp [writeservice, retry_from, h1, h2, h3]

/-- C6: the retry shell performs between 1 and 3 attempts, succeeds exactly
when one of the first three attempts succeeds, stops at the first
successful attempt, raises (reports failure) only when all 3 attempts
failed, sleeps exactly once between consecutive attempts, and its whole
behaviour is independent of attempt outcomes beyond the third (so no 4th
attempt is ever consulted). -/
theorem C6_retry_shell (outcome : ℕ → Bool) :
    (writeservice outcome).1 ≤ 3
    ∧ 1 ≤ (writeservice outcome).1
    ∧ (writeservice outcome).2.2 = (outcome 1 || outcome 2 || outcome 3)
    ∧ ((writeservice outcome).2.2 = true →
        outcome (writeservice outcome).1 = true
        ∧ ∀ k, 1 ≤ k → k < (writeservice outcome).1 → outcome k = false)
    ∧ ((writeservice outcome).2.2 = false →
        outcome 1 = false ∧ outcome 2 = false ∧ outcome 3 = false)
    ∧ (writeservice outcome).2.1 = (writeservice outcome).1 - 1
    ∧ (∀ outcome2 : ℕ → Bool, (∀ n, n ≤ 3 → outcome2 n = outcome n) →
        writeservice outcome2 = writeservice outcome) := by
  rcases h1 : outcome 1 with _ | _
  · rcases h2 : outcome 2 with _ | _
    · rcases h3 : outcome 3 with _ | _
      · have e : writeservice outcome = (3, 2, false) := by
          rw [writeservice_eval]; simp [h1, h2, h3]
        rw [e]
        refine ⟨by decide, by decide, by simp [h1, h2, h3], ?_, ?_, by decide, ?_⟩
        · intro hf; simp at hf
        · intro _; exact ⟨rfl, rfl, rfl⟩
        · intro o2 ho
          rw [writeservice_eval o2]
          simp [ho 1 (by norm_num), ho 2 (by norm_num), ho 3 (by norm_num), h1, h2, h3]
      · have e : writeservice outcome = (3, 2, true) := by
          rw [writeservice_eval]; simp [h1, h2, h3]
        rw [e]
        refine ⟨by decide, by decide, by simp [h1, h2, h3], ?_, ?_, by decide, ?_⟩
        · intro _
          refine ⟨by simpa using h3, ?_⟩
          intro k hk1 hk2
          interval_cases k
          · exact h1
          · exact h2
        · intro hf; simp at hf
        · intro o2 ho
          rw [writeservice_eval o2]
          simp [ho 1 (by norm_num), ho 2 (by norm_num), ho 3 (by norm_num), h1, h2, h3]
    · have e : writeservice outcome = (2, 1, true) := by
        rw [writeservice_eval]; simp [h1, h2]
      rw [e]
      refine ⟨by decide, by decide, by simp [h1, h2], ?_, ?_, by decide, ?_⟩
      · intro _
        refine ⟨by simpa using h2, ?_⟩
        intro k hk1 hk2
        interval_cases k
        exact h1
      · intro hf; simp at hf
      · intro o2 ho
        rw [writeservice_eval o2]
        simp [ho 1 (by norm_num), ho 2 (by norm_num), h1, h2]
  · have e : writeservice outcome = (1, 0, true) := by
      rw [writeservice_eval]; simp [h1]
    rw [e]
    refine ⟨by decide, by decide, by simp [h1], ?_, ?_, by decide, ?_⟩
    · intro _
      refine ⟨by simpa using h1, ?_⟩
      intro k hk1 hk2
      omega
    · intro hf; simp at hf
    · intro o2 ho
      rw [writeservice_eval o2]
      simp [ho 1 (by norm_num), h1]

/-- C6 witness: with a transport failing on attempts 1-2 and succeeding on
attempt 3, the shell performs exactly 3 attempts, 2 sleeps, and succeeds. -/
theorem C6_retry_shell_witness :
    (writeservice fun n => decide (n = 3)).2.2 = ((fun n => decide (n = 3)) 1
        || (fun n => decide (n = 3)) 2 || (fun n => decide (n = 3)) 3)
    ∧ (writeservice fun n => decide (n = 3)).1 ≤ 3
    ∧ (writeservice fun n => decide (n = 3)).2.1 = (writeservice fun n => decide (n = 3)).1 - 1
    ∧ (fun n => decide (n = 3)) (writeservice fun n => decide (n = 3)).1 = true :=
  ⟨(C6_retry_shell fun n => decide (n = 3)).2.2.1,
   (C6_retry_shell fun n => decide (n = 3)).1,
   (C6_retry_shell fun n => decide (n = 3)).2.2.2.2.2.1,
   ((C6_retry_shell fun n => decide (n = 3)).2.2.2.1
     (by rw [writeservice_eval]; norm_num)).1⟩

/-! ## C9: the notification slot -/

theorem foldl_notification_saturated (d : List ℕ) (ns : List (List ℕ)) :
    ns.foldl notification_handler ⟨some d, true⟩ = ⟨some d, true⟩ := by
  induction ns with
  | nil => rfl
  | cons x ns ih =>
    rw [List.foldl_cons]
    have : notification_handler ⟨some d, true⟩ x = ⟨some d, true⟩ := by
      simp [notification_handler]
    rw [this, ih]

/-- C9: the response obtained by a write-with-response cycle is exactly the
first notification delivered after that cycle's clear (and a timeout when
none arrives), whatever stale value or event state the adapter held
before: a notification buffered from an earlier request never satisfies a
later request. -/
theorem C9_no_stale_notification (s : Adapter) (ns : List (List ℕ)) :
    write_with_response s ns = ns.head? := by
  cases ns with
  | nil => rfl
  | cons d ns =>
    unfold write_with_response clear_before_write
    rw [List.foldl_cons]
    have h1 : notification_handler ⟨none, false⟩ d = ⟨some d, true⟩ := by
      simp [notification_handler]
    rw [h1, foldl_notification_saturated]
    rfl

/-! ## C7: battery percentage -/

theorem C7_counterexample : ¬ ClaimC7 := by
  intro h
  have h2 := h [0x4B, 30, 0, 0, 0] EPD42 (by rfl) (by rfl)
  rw [show ([0x4B, 30, 0, 0, 0].getD 1 0) = 30 from rfl] at h2
  have hL : parse_gicisky_battery [0x4B, 30, 0, 0, 0]
      = some (round1 (((30 : ℚ) / 10 - 22 / 10) * 100 / (29 / 10 - 22 / 10))) := by
    simp [parse_gicisky_battery, DEVICE_TYPES]
  rw [hL] at h2
  have hcode : round1 (((30 : ℚ) / 10 - 22 / 10) * 100 / (29 / 10 - 22 / 10)) = 1143 / 10 := by
    unfold round1
    rw [round_eq]
    norm_num
  have hspec : round1 (specBatteryPercentage EPD42 (((30 : ℕ) : ℚ) / 10)) = 100 := by
    unfold round1 specBatteryPercentage
    have : EPD42.max_voltage = 3 := rfl
    rw [this, show EPD42.min_voltage = 22 / 10 from rfl, round_eq]
    norm_num
  rw [hcode, hspec] at h2
  have : (1143 : ℚ) / 10 = 100 := by injection h2
  norm_num at this

/-- C7 (amended): the parser computes the battery percentage from the
hardcoded constants 2.2 V and 2.9 V — rounded to one decimal — for every
known device code, ignoring the descriptor's voltages; consequently it
agrees with the descriptor-voltage formula exactly on descriptors whose
voltages are the defaults 2.2/2.9 (and not, e.g., on the 400x300 and
800x480 models whose max voltage is 3.0). -/
theorem C7_hardcoded_constants (data : List ℕ) (device : DeviceEntry)
    (h5 : data.length = 5)
    (hdev : DEVICE_TYPES (data.getD 0 0) = some device) :
    parse_gicisky_battery data
      = some (round1 (((data.getD 1 0 : ℚ) / 10 - 22 / 10) * 100 / (29 / 10 - 22 / 10)))
    ∧ (device.min_voltage = 22 / 10 → device.max_voltage = 29 / 10 →
        parse_gicisky_battery data
          = some (round1 (specBatteryPercentage device ((data.getD 1 0 : ℚ) / 10)))) := by
  have hmain : parse_gicisky_battery data
      = some (round1 (((data.getD 1 0 : ℚ) / 10 - 22 / 10) * 100 / (29 / 10 - 22 / 10))) := by
    unfold parse_gicisky_battery
    rw [if_neg (by omega), hdev]
  refine ⟨hmain, fun hmin hmax => ?_⟩
  rw [hmain]
  congr 1
  unfold specBatteryPercentage
  rw [hmin, hmax]

/-- C7 witness: a 5-byte payload for the EPD 2.9" device (default
voltages), where the code and the descriptor formula agree. -/
theorem C7_hardcoded_constants_witness :
    parse_gicisky_battery [0x33, 25, 0, 0, 0]
      = some (round1 (specBatteryPercentage EPD29 (((25 : ℕ) : ℚ) / 10))) := by
  have h := (C7_hardcoded_constants [0x33, 25, 0, 0, 0] EPD29 (by rfl) (by rfl)).2
    (by rfl) (by rfl)
  simpa using h

/-! ## C5: image chunk packets cover the buffer -/

theorem take_min_eq {α : Type} (m : ℕ) (l : List α) : l.take (min m l.length) = l.take m := by
  rcases Nat.le_total m l.length with h | h
  · rw [Nat.min_eq_left h]
  · rw [Nat.min_eq_right h, List.take_length, List.take_of_length_le h]

theorem flatten_chunks240 (l : List ℕ) :
    ((List.range ((l.length + 239) / 240)).map
        (fun i => (l.drop (240 * i)).take 240)).flatten = l := by
  generalize hn : l.length = n
  induction n using Nat.strong_induction_on generalizing l with
  | _ n ih =>
    rcases Nat.eq_zero_or_pos n with h0 | hpos
    · subst h0
      obtain rfl := List.length_eq_zero.mp hn
      simp
    · have hceil : (n + 239) / 240 = ((n - 240) + 239) / 240 + 1 := by omega
      rw [hceil, List.range_succ_eq_map]
      have htail : ∀ i : ℕ, l.drop (240 * (i + 1)) = (l.drop 240).drop (240 * i) := by
        intro i
        rw [List.drop_drop]
        congr 1
        ring
      simp only [List.map_cons, List.map_map, Nat.mul_zero, List.drop_zero, List.flatten_cons]
      have hcomp : ((fun i => List.take 240 (List.drop (240 * i) l)) ∘ Nat.succ)
          = fun i => List.take 240 (List.drop (240 * i) (List.drop 240 l)) := by
        funext i
        simp only [Function.comp_apply, Nat.succ_eq_add_one, htail]
      rw [hcomp]
      have ihl := ih (n - 240) (by omega) (l.drop 240) (by rw [List.length_drop, hn])
      rw [ihl]
      exact List.take_append_drop 240 l

/-- C5: the image packet for chunk index `i` is the 4-byte LE index
followed by `min(240, totalSize − 240·i)` bytes of the buffer starting at
offset `240·i`, and over indices `0 … ceil(totalSize/240) − 1` the
payloads tile the entire buffer exactly: their concatenation is the buffer
and their lengths sum to `totalSize`. -/
theorem C5_img_packet_cover (buf : List ℕ) (total : ℕ) (h : buf.length = total) :
    (∀ i, make_img_packet total buf i
        = toBytesLE4 i ++ ((buf.drop (240 * i)).take (min 240 (total - 240 * i))))
    ∧ (∀ i, ((make_img_packet total buf i).drop 4).length = min 240 (total - 240 * i))
    ∧ ((List.range ((total + 239) / 240)).map
          (fun i => (make_img_packet total buf i).drop 4)).flatten = buf
    ∧ ((List.range ((total + 239) / 240)).map
          (fun i => ((make_img_packet total buf i).drop 4).length)).sum = total := by
  have hshape : ∀ i, make_img_packet total buf i
      = toBytesLE4 i ++ ((buf.drop (240 * i)).take (min 240 (total - 240 * i))) := by
    intro i
    simp [make_img_packet, Nat.mul_comm]
  have hpay : ∀ i, (make_img_packet total buf i).drop 4
      = (buf.drop (240 * i)).take (min 240 (total - 240 * i)) := by
    intro i
    rw [hshape i]
    simp [toBytesLE4]
  have hlen : ∀ i, ((make_img_packet total buf i).drop 4).length = min 240 (total - 240 * i) := by
    intro i
    rw [hpay i, List.length_take, List.length_drop, h]
    omega
  have hchunk : ∀ i, (make_img_packet total buf i).drop 4 = (buf.drop (240 * i)).take 240 := by
    intro i
    rw [hpay i]
    have hlen2 : (buf.drop (240 * i)).length = total - 240 * i := by rw [List.length_drop, h]
    rw [← hlen2]
    exact take_min_eq 240 (buf.drop (240 * i))
  have hflat : ((List.range ((total + 239) / 240)).map
      (fun i => (make_img_packet total buf i).drop 4)).flatten = buf := by
    have hmaps : (List.range ((total + 239) / 240)).map
        (fun i => (make_img_packet total buf i).drop 4)
        = (List.range ((total + 239) / 240)).map (fun i => (buf.drop (240 * i)).take 240) := by
      apply List.map_congr_left
      intro i _
      exact hchunk i
    rw [hmaps, ← h]
    exact flatten_chunks240 buf
  refine ⟨hshape, hlen, hflat, ?_⟩
  have hml : (List.range ((total + 239) / 240)).map
      (fun i => ((make_img_packet total buf i).drop 4).length)
      = ((List.range ((total + 239) / 240)).map
          (fun i => (make_img_packet total buf i).drop 4)).map List.length := by
    rw [List.map_map]
    rfl
  rw [hml, ← List.length_flatten, hflat, h]

/-- C5 witness: a 3-byte buffer is covered by its single chunk packet. -/
theorem C5_img_packet_cover_witness :
    ((List.range ((3 + 239) / 240)).map
        (fun i => (make_img_packet 3 [1, 2, 3] i).drop 4)).flatten = [1, 2, 3]
    ∧ ((make_img_packet 3 [1, 2, 3] 0).drop 4).length = min 240 (3 - 240 * 0) :=
  ⟨(C5_img_packet_cover [1, 2, 3] 3 rfl).2.2.1,
   (C5_img_packet_cover [1, 2, 3] 3 rfl).2.1 0⟩

/-! ## Bit-packing: the accumulator loop computes MSB-first packing -/

theorem byteOfBits_nil : byteOfBits [] = 0 := rfl

theorem bitVal_append (ms : List Bool) (b : Bool) :
    bitVal (ms ++ [b]) = 2 * bitVal ms + b.toNat := by
  simp [bitVal, List.foldl_append]

theorem testBit_mulPow_add (a b k j : ℕ) (hb : b < 2 ^ k) :
    (a * 2 ^ k + b).testBit j = if j < k then b.testBit j else a.testBit (j - k) := by
  rcases Nat.lt_or_ge j k with h | h
  · rw [if_pos h, Nat.testBit_to_div_mod, Nat.testBit_to_div_mod]
    have hsplit : (2 : ℕ) ^ j * 2 ^ (k - j) = 2 ^ k := by
      rw [← pow_add]
      congr 1
      omega
    have h2 : a * 2 ^ k + b = 2 ^ j * (2 ^ (k - j) * a) + b := by
      rw [← Nat.mul_assoc, hsplit, Nat.mul_comm a]
    rw [h2, Nat.mul_add_div (Nat.two_pow_pos j)]
    have heven : 2 ^ (k - j) * a % 2 = 0 := by
      have hd : (2 : ℕ) ∣ 2 ^ (k - j) * a :=
        Dvd.dvd.mul_right (dvd_pow_self 2 (by omega : k - j ≠ 0)) a
      omega
    have : (2 ^ (k - j) * a + b / 2 ^ j) % 2 = b / 2 ^ j % 2 := by omega
    rw [this]
  · rw [if_neg (by omega), Nat.testBit_to_div_mod, Nat.testBit_to_div_mod]
    have hdiv : (a * 2 ^ k + b) / 2 ^ j = a / 2 ^ (j - k) := by
      have hsplit : (2 : ℕ) ^ j = 2 ^ k * 2 ^ (j - k) := by
        rw [← pow_add]
        congr 1
        omega
      rw [hsplit, ← Nat.div_div_eq_div_mul]
      congr 1
      rw [Nat.mul_comm a, Nat.mul_add_div (Nat.two_pow_pos k), Nat.div_eq_of_lt hb,
        Nat.add_zero]
    rw [hdiv]

theorem mulPow_or_eq_add (a b k : ℕ) (hb : b < 2 ^ k) :
    (a * 2 ^ k) ||| b = a * 2 ^ k + b := by
  apply Nat.eq_of_testBit_eq
  intro j
  rw [Nat.testBit_or, testBit_mulPow_add a b k j hb]
  rcases Nat.lt_or_ge j k with h | h
  · rw [if_pos h]
    have hz : (a * 2 ^ k).testBit j = false := by
      rw [← Nat.shiftLeft_eq, Nat.testBit_shiftLeft]
      simp [Nat.not_le.mpr h]
    rw [hz, Bool.false_or]
  · rw [if_neg (by omega)]
    have hbf : b.testBit j = false :=
      Nat.testBit_lt_two_pow (lt_of_lt_of_le hb (Nat.pow_le_pow_right (by norm_num) h))
    rw [hbf, Bool.or_false, ← Nat.shiftLeft_eq, Nat.testBit_shiftLeft]
    simp [h]

theorem byteOfBits_snoc (ms : List Bool) (b : Bool) (h : ms.length ≤ 7) :
    byteOfBits (ms ++ [b]) = byteOfBits ms + b.toNat * 2 ^ (7 - ms.length) := by
  unfold byteOfBits
  rw [bitVal_append, Nat.shiftLeft_eq, Nat.shiftLeft_eq, List.length_append,
    show List.length [b] = 1 from rfl,
    show (8 - (ms.length + 1)) = 7 - ms.length from by omega,
    show (8 - ms.length) = (7 - ms.length) + 1 from by omega, pow_succ]
  ring

theorem byteOfBits_snoc_false (ms : List Bool) (h : ms.length ≤ 7) :
    byteOfBits (ms ++ [false]) = byteOfBits ms := by
  rw [byteOfBits_snoc ms false h]
  simp

theorem byteOfBits_or_true (ms : List Bool) (h : ms.length ≤ 7) :
    byteOfBits ms ||| (1 <<< (7 - ms.length)) = byteOfBits (ms ++ [true]) := by
  rw [byteOfBits_snoc ms true h, Nat.shiftLeft_eq, one_mul, Bool.toNat_true, one_mul]
  unfold byteOfBits
  rw [Nat.shiftLeft_eq]
  exact mulPow_or_eq_add (bitVal ms) (2 ^ (7 - ms.length)) (8 - ms.length)
    (Nat.pow_lt_pow_right (by norm_num) (by omega))

theorem packFull_nil_of_lt (bs : List Bool) (h : bs.length < 8) : packFull bs = [] := by
  rcases bs with _ | ⟨a1, _ | ⟨a2, _ | ⟨a3, _ | ⟨a4, _ | ⟨a5, _ | ⟨a6, _ | ⟨a7, _ | ⟨a8, t⟩⟩⟩⟩⟩⟩⟩⟩ <;>
    first
      | rfl
      | (exfalso; simp only [List.length_cons, List.length_nil] at h; omega)

theorem packFull_of_le (bs : List Bool) (h : 8 ≤ bs.length) :
    packFull bs = byteOfBits (bs.take 8) :: packFull (bs.drop 8) := by
  rcases bs with _ | ⟨a1, _ | ⟨a2, _ | ⟨a3, _ | ⟨a4, _ | ⟨a5, _ | ⟨a6, _ | ⟨a7, _ | ⟨a8, t⟩⟩⟩⟩⟩⟩⟩⟩ <;>
    first
      | rfl
      | (exfalso; simp only [List.length_cons, List.length_nil] at h; omega)

theorem packBits_short (bs : List Bool) (h1 : bs ≠ []) (h2 : bs.length < 8) :
    packBits bs = [byteOfBits bs] := by
  rcases bs with _ | ⟨a1, _ | ⟨a2, _ | ⟨a3, _ | ⟨a4, _ | ⟨a5, _ | ⟨a6, _ | ⟨a7, _ | ⟨a8, t⟩⟩⟩⟩⟩⟩⟩⟩ <;>
    first
      | rfl
      | (exact absurd rfl h1)
      | (exfalso; simp only [List.length_cons, List.length_nil] at h2; omega)

theorem packBits_of_le (bs : List Bool) (h : 8 ≤ bs.length) :
    packBits bs = byteOfBits (bs.take 8) :: packBits (bs.drop 8) := by
  rcases bs with _ | ⟨a1, _ | ⟨a2, _ | ⟨a3, _ | ⟨a4, _ | ⟨a5, _ | ⟨a6, _ | ⟨a7, _ | ⟨a8, t⟩⟩⟩⟩⟩⟩⟩⟩ <;>
    first
      | rfl
      | (exfalso; simp only [List.length_cons, List.length_nil] at h; omega)

theorem lastBits_of_lt (bs : List Bool) (h : bs.length < 8) : lastBits bs = bs := by
  unfold lastBits
  rw [Nat.div_eq_of_lt h]
  simp

theorem lastBits_length (bs : List Bool) : (lastBits bs).length = bs.length % 8 := by
  unfold lastBits
  rw [List.length_drop]
  omega

theorem lastBits_drop8 (bs : List Bool) (h : 8 ≤ bs.length) :
    lastBits bs = lastBits (bs.drop 8) := by
  unfold lastBits
  rw [List.length_drop, List.drop_drop]
  congr 1
  omega

theorem packFull_snoc (bs : List Bool) (b : Bool) :
    (bs.length % 8 = 7 →
        packFull (bs ++ [b]) = packFull bs ++ [byteOfBits (lastBits bs ++ [b])]
        ∧ lastBits (bs ++ [b]) = [])
    ∧ (bs.length % 8 ≠ 7 →
        packFull (bs ++ [b]) = packFull bs ∧ lastBits (bs ++ [b]) = lastBits bs ++ [b]) := by
  generalize hn : bs.length = n
  induction n using Nat.strong_induction_on generalizing bs with
  | _ n ih =>
    rcases Nat.lt_or_ge n 8 with h8 | h8
    · have hlt : bs.length < 8 := by omega
      have hpf : packFull bs = [] := packFull_nil_of_lt bs hlt
      have hlast : lastBits bs = bs := lastBits_of_lt bs hlt
      constructor
      · intro h7
        have hl7 : bs.length = 7 := by omega
        have h8' : 8 ≤ (bs ++ [b]).length := by simp [hl7]
        constructor
        · rw [packFull_of_le (bs ++ [b]) h8',
            List.take_of_length_le (by simp [hl7]), List.drop_eq_nil_of_le (by simp [hl7]),
            hpf, hlast]
          rfl
        · unfold lastBits
          have hl8 : (bs ++ [b]).length = 8 := by simp [hl7]
          rw [hl8]
          apply List.drop_eq_nil_of_le
          rw [hl8]
      · intro h7
        have hlt1 : (bs ++ [b]).length < 8 := by simp; omega
        exact ⟨by rw [packFull_nil_of_lt _ hlt1, hpf],
               by rw [lastBits_of_lt _ hlt1, hlast]⟩
    · have h8b : 8 ≤ bs.length := by omega
      have h8ab : 8 ≤ (bs ++ [b]).length := by simp; omega
      have ht : (bs ++ [b]).take 8 = bs.take 8 := by
        rw [List.take_append_eq_append_take, Nat.sub_eq_zero_of_le h8b]
        simp
      have hd : (bs ++ [b]).drop 8 = bs.drop 8 ++ [b] := by
        rw [List.drop_append_eq_append_drop, Nat.sub_eq_zero_of_le h8b]
        simp
      have hlen : (bs.drop 8).length = n - 8 := by rw [List.length_drop, hn]
      have ihd := ih (n - 8) (by omega) (bs.drop 8) hlen
      have hmod : (bs.drop 8).length % 8 = n % 8 := by rw [hlen]; omega
      have hlastd : lastBits bs = lastBits (bs.drop 8) := lastBits_drop8 bs h8b
      have hlastab : lastBits (bs ++ [b]) = lastBits (bs.drop 8 ++ [b]) := by
        have h2 := lastBits_drop8 (bs ++ [b]) h8ab
        rw [h2, hd]
      constructor
      · intro h7
        obtain ⟨hpf_d, hlast_d⟩ := ihd.1 (by omega)
        constructor
        · rw [packFull_of_le _ h8ab, ht, hd, hpf_d, packFull_of_le bs h8b, hlastd]
          simp
        · rw [hlastab]
          exact hlast_d
      · intro h7
        obtain ⟨hpf_d, hlast_d⟩ := ihd.2 (by omega)
        exact ⟨by rw [packFull_of_le _ h8ab, ht, hd, hpf_d, packFull_of_le bs h8b],
               by rw [hlastab, hlast_d, hlastd]⟩

theorem packBits_eq_parts (bs : List Bool) :
    packBits bs = packFull bs
      ++ (if bs.length % 8 = 0 then [] else [byteOfBits (lastBits bs)]) := by
  generalize hn : bs.length = n
  induction n using Nat.strong_induction_on generalizing bs with
  | _ n ih =>
    rcases Nat.lt_or_ge n 8 with h8 | h8
    · have hlt : bs.length < 8 := by omega
      rcases eq_or_ne bs [] with rfl | hne
      · obtain rfl : n = 0 := by simpa using hn.symm
        simp [packBits, packFull]
      · rw [packBits_short bs hne hlt, packFull_nil_of_lt bs hlt, lastBits_of_lt bs hlt]
        have hz : bs.length ≠ 0 := by
          intro hc
          exact hne (List.length_eq_zero.mp hc)
        rw [if_neg (by omega)]
        simp
    · have h8b : 8 ≤ bs.length := by omega
      rw [packBits_of_le bs h8b, packFull_of_le bs h8b]
      have hlen : (bs.drop 8).length = n - 8 := by rw [List.length_drop, hn]
      rw [ih (n - 8) (by omega) (bs.drop 8) hlen, ← lastBits_drop8 bs h8b,
        show (n - 8) % 8 = n % 8 from by omega]
      simp

theorem pixelStep_def (s : PackState) (p : RGB) :
    pixelStep s p =
      if s.bit_pos = 0 then
        { byte_data := s.byte_data
            ++ [if blackBit p then s.current_byte ||| (1 <<< s.bit_pos) else s.current_byte]
          byte_data_red := s.byte_data_red
            ++ [if redBit p then s.current_byte_red ||| (1 <<< s.bit_pos) else s.current_byte_red]
          current_byte := 0
          current_byte_red := 0
          bit_pos := 7 }
      else
        { s with
          current_byte :=
            if blackBit p then s.current_byte ||| (1 <<< s.bit_pos) else s.current_byte
          current_byte_red :=
            if redBit p then s.current_byte_red ||| (1 <<< s.bit_pos) else s.current_byte_red
          bit_pos := s.bit_pos - 1 } := rfl

theorem packedState_byte_data (bits : List (Bool × Bool)) :
    (packedState bits).byte_data = packFull (bits.map Prod.fst) := rfl

theorem packedState_byte_data_red (bits : List (Bool × Bool)) :
    (packedState bits).byte_data_red = packFull (bits.map Prod.snd) := rfl

theorem packedState_current_byte (bits : List (Bool × Bool)) :
    (packedState bits).current_byte = byteOfBits (lastBits (bits.map Prod.fst)) := rfl

theorem packedState_current_byte_red (bits : List (Bool × Bool)) :
    (packedState bits).current_byte_red = byteOfBits (lastBits (bits.map Prod.snd)) := rfl

theorem packedState_bit_pos (bits : List (Bool × Bool)) :
    (packedState bits).bit_pos = 7 - bits.length % 8 := rfl

theorem pixelStep_packedState (bits : List (Bool × Bool)) (p : RGB) :
    pixelStep (packedState bits) p = packedState (bits ++ [(blackBit p, redBit p)]) := by
  have hlf : (lastBits (bits.map Prod.fst)).length = bits.length % 8 := by
    rw [lastBits_length, List.length_map]
  have hls : (lastBits (bits.map Prod.snd)).length = bits.length % 8 := by
    rw [lastBits_length, List.length_map]
  have hfst : (bits ++ [(blackBit p, redBit p)]).map Prod.fst
      = bits.map Prod.fst ++ [blackBit p] := by simp
  have hsnd : (bits ++ [(blackBit p, redBit p)]).map Prod.snd
      = bits.map Prod.snd ++ [redBit p] := by simp
  have hlen1 : (bits ++ [(blackBit p, redBit p)]).length = bits.length + 1 := by simp
  have hcb : (if blackBit p
        then byteOfBits (lastBits (bits.map Prod.fst)) ||| (1 <<< (7 - bits.length % 8))
        else byteOfBits (lastBits (bits.map Prod.fst)))
      = byteOfBits (lastBits (bits.map Prod.fst) ++ [blackBit p]) := by
    cases hb : blackBit p
    · rw [if_neg Bool.false_ne_true, byteOfBits_snoc_false _ (by rw [hlf]; omega)]
    · rw [if_pos rfl, show 7 - bits.length % 8 = 7 - (lastBits (bits.map Prod.fst)).length
        from by rw [hlf]]
      exact byteOfBits_or_true _ (by rw [hlf]; omega)
  have hcr : (if redBit p
        then byteOfBits (lastBits (bits.map Prod.snd)) ||| (1 <<< (7 - bits.length % 8))
        else byteOfBits (lastBits (bits.map Prod.snd)))
      = byteOfBits (lastBits (bits.map Prod.snd) ++ [redBit p]) := by
    cases hb : redBit p
    · rw [if_neg Bool.false_ne_true, byteOfBits_snoc_false _ (by rw [hls]; omega)]
    · rw [if_pos rfl, show 7 - bits.length % 8 = 7 - (lastBits (bits.map Prod.snd)).length
        from by rw [hls]]
      exact byteOfBits_or_true _ (by rw [hls]; omega)
  rw [pixelStep_def]
  by_cases h0 : bits.length % 8 = 7
  · rw [if_pos (show (packedState bits).bit_pos = 0 from by rw [packedState_bit_pos]; omega)]
    obtain ⟨hp1, hl1⟩ := (packFull_snoc (bits.map Prod.fst) (blackBit p)).1
      (by rw [List.length_map]; exact h0)
    obtain ⟨hp2, hl2⟩ := (packFull_snoc (bits.map Prod.snd) (redBit p)).1
      (by rw [List.length_map]; exact h0)
    ext
    · simp only [packedState_byte_data, packedState_current_byte, packedState_bit_pos,
        hfst, hp1, hcb]
    · simp only [packedState_byte_data_red, packedState_current_byte_red, packedState_bit_pos,
        hsnd, hp2, hcr]
    · simp only [packedState_current_byte, hfst, hl1, byteOfBits_nil]
    · simp only [packedState_current_byte_red, hsnd, hl2, byteOfBits_nil]
    · simp only [packedState_bit_pos, hlen1]
      omega
  · rw [if_neg (show ¬ (packedState bits).bit_pos = 0 from by rw [packedState_bit_pos]; omega)]
    obtain ⟨hp1, hl1⟩ := (packFull_snoc (bits.map Prod.fst) (blackBit p)).2
      (by rw [List.length_map]; exact h0)
    obtain ⟨hp2, hl2⟩ := (packFull_snoc (bits.map Prod.snd) (redBit p)).2
      (by rw [List.length_map]; exact h0)
    ext
    · simp only [packedState_byte_data, hfst, hp1]
    · simp only [packedState_byte_data_red, hsnd, hp2]
    · simp only [packedState_current_byte, packedState_bit_pos, hfst, hl1, hcb]
    · simp only [packedState_current_byte_red, packedState_bit_pos, hsnd, hl2, hcr]
    · simp only [packedState_bit_pos, hlen1]
      omega

theorem packedState_nil : packedState [] = initState := rfl

theorem foldl_pixelStep (qs : List RGB) (bits : List (Bool × Bool)) :
    qs.foldl pixelStep (packedState bits)
      = packedState (bits ++ qs.map fun p => (blackBit p, redBit p)) := by
  induction qs generalizing bits with
  | nil => simp
  | cons p qs ih =>
    rw [List.foldl_cons, pixelStep_packedState, ih]
    simp

theorem encodeFold_eq (device : DeviceEntry) (pixels : ℕ → ℕ → RGB) :
    encodeFold device pixels
      = packedState ((visitOrder device.width device.height).map
          fun q => (blackBit (pixels q.1 q.2), redBit (pixels q.1 q.2))) := by
  unfold encodeFold
  rw [show initState = packedState [] from packedState_nil.symm,
    show (visitOrder device.width device.height).foldl
        (fun s q => pixelStep s (pixels q.1 q.2)) (packedState [])
      = ((visitOrder device.width device.height).map (fun q => pixels q.1 q.2)).foldl
          pixelStep (packedState [])
      from (List.foldl_map _ _ _ _).symm,
    foldl_pixelStep]
  rw [List.map_map, List.nil_append]
  rfl

theorem plane0_eq (device : DeviceEntry) (pixels : ℕ → ℕ → RGB) :
    plane0 device pixels
      = packBits ((visitOrder device.width device.height).map
          fun q => blackBit (pixels q.1 q.2)) := by
  unfold plane0
  rw [encodeFold_eq]
  have hfst : ((visitOrder device.width device.height).map
        fun q => (blackBit (pixels q.1 q.2), redBit (pixels q.1 q.2))).map Prod.fst
      = (visitOrder device.width device.height).map fun q => blackBit (pixels q.1 q.2) := by
    rw [List.map_map]
    rfl
  have hlen : ((visitOrder device.width device.height).map
        fun q => (blackBit (pixels q.1 q.2), redBit (pixels q.1 q.2))).length
      = ((visitOrder device.width device.height).map
          fun q => blackBit (pixels q.1 q.2)).length := by
    rw [List.length_map, List.length_map]
  rw [packedState_bit_pos, packedState_byte_data, packedState_current_byte, hfst, hlen,
    packBits_eq_parts]
  by_cases hm : ((visitOrder device.width device.height).map
      fun q => blackBit (pixels q.1 q.2)).length % 8 = 0
  · rw [if_neg (by omega), if_pos hm]
    simp
  · rw [if_pos (by omega), if_neg hm]

theorem plane1_eq (device : DeviceEntry) (pixels : ℕ → ℕ → RGB) :
    plane1 device pixels
      = packBits ((visitOrder device.width device.height).map
          fun q => redBit (pixels q.1 q.2)) := by
  unfold plane1
  rw [encodeFold_eq]
  have hsnd : ((visitOrder device.width device.height).map
        fun q => (blackBit (pixels q.1 q.2), redBit (pixels q.1 q.2))).map Prod.snd
      = (visitOrder device.width device.height).map fun q => redBit (pixels q.1 q.2) := by
    rw [List.map_map]
    rfl
  have hlen : ((visitOrder device.width device.height).map
        fun q => (blackBit (pixels q.1 q.2), redBit (pixels q.1 q.2))).length
      = ((visitOrder device.width device.height).map
          fun q => redBit (pixels q.1 q.2)).length := by
    rw [List.length_map, List.length_map]
  rw [packedState_bit_pos, packedState_byte_data_red, packedState_current_byte_red, hsnd, hlen,
    packBits_eq_parts]
  by_cases hm : ((visitOrder device.width device.height).map
      fun q => redBit (pixels q.1 q.2)).length % 8 = 0
  · rw [if_neg (by omega), if_pos hm]
    simp
  · rw [if_pos (by omega), if_neg hm]

theorem packBits_length (bs : List Bool) : (packBits bs).length = (bs.length + 7) / 8 := by
  generalize hn : bs.length = n
  induction n using Nat.strong_induction_on generalizing bs with
  | _ n ih =>
    rcases Nat.lt_or_ge n 8 with h8 | h8
    · rcases eq_or_ne bs [] with rfl | hne
      · obtain rfl : n = 0 := by simpa using hn.symm
        simp [packBits]
      · rw [packBits_short bs hne (by omega)]
        have hz : bs.length ≠ 0 := fun hc => hne (List.length_eq_zero.mp hc)
        simp only [List.length_singleton]
        omega
    · rw [packBits_of_le bs (by omega)]
      simp only [List.length_cons]
      rw [ih (n - 8) (by omega) (bs.drop 8) (by rw [List.length_drop, hn])]
      omega

theorem visitOrder_length (w h : ℕ) : (visitOrder w h).length = w * h := by
  induction w with
  | zero => simp [visitOrder]
  | succ w ih =>
    unfold visitOrder
    rw [List.range_succ, List.flatMap_append, List.length_append]
    unfold visitOrder at ih
    rw [ih]
    simp [Nat.succ_mul]

/-- C2: for every device descriptor and pixel map, each encoded plane has
exactly `ceil(width * height / 8)` bytes, and the combined buffer has that
length times the number of planes (2 when the descriptor supports red,
else 1). -/
theorem C2_encoder_output_length (device : DeviceEntry) (pixels : ℕ → ℕ → RGB) :
    (plane0 device pixels).length = (device.width * device.height + 7) / 8
    ∧ (plane1 device pixels).length = (device.width * device.height + 7) / 8
    ∧ (get_pixel_data device pixels).length
        = (if device.red then 2 else 1) * ((device.width * device.height + 7) / 8) := by
  have h0 : (plane0 device pixels).length = (device.width * device.height + 7) / 8 := by
    rw [plane0_eq, packBits_length, List.length_map, visitOrder_length]
  have h1 : (plane1 device pixels).length = (device.width * device.height + 7) / 8 := by
    rw [plane1_eq, packBits_length, List.length_map, visitOrder_length]
  refine ⟨h0, h1, ?_⟩
  unfold get_pixel_data
  cases hr : device.red
  · rw [if_neg Bool.false_ne_true, if_neg Bool.false_ne_true, h0, Nat.one_mul]
  · rw [if_pos rfl, if_pos rfl, List.length_append, h0, h1]
    omega

theorem bitVal_testBit (ms : List Bool) (i : ℕ) :
    (bitVal ms).testBit i
      = if i < ms.length then ms.getD (ms.length - 1 - i) false else false := by
  induction ms using List.reverseRecOn generalizing i with
  | nil => simp [bitVal, Nat.zero_testBit]
  | append_singleton ms b ih =>
    rw [bitVal_append]
    cases i with
    | zero =>
      have hb : b.toNat < 2 := Bool.toNat_lt b
      have hm : (2 * bitVal ms + b.toNat) % 2 = b.toNat := by omega
      rw [Nat.testBit_zero, hm, if_pos (by simp)]
      have hg : (ms ++ [b]).getD ms.length false = b := by
        rw [List.getD_eq_getElem?_getD]
        simp
      rw [show (ms ++ [b]).length - 1 - 0 = ms.length from by simp, hg]
      cases b <;> rfl
    | succ i =>
      have hb : b.toNat < 2 := Bool.toNat_lt b
      have hdiv : (2 * bitVal ms + b.toNat) / 2 = bitVal ms := by omega
      rw [Nat.testBit_succ, hdiv, ih]
      by_cases hi : i < ms.length
      · rw [if_pos hi, if_pos (by simp; omega)]
        rw [show (ms ++ [b]).length - 1 - (i + 1) = ms.length - 1 - i from by simp; omega]
        rw [List.getD_eq_getElem?_getD, List.getD_eq_getElem?_getD,
          List.getElem?_append_left (by omega : ms.length - 1 - i < ms.length)]
      · rw [if_neg hi, if_neg (by simp; omega)]

theorem byteOfBits_testBit (ms : List Bool) (j : ℕ) (h8 : ms.length ≤ 8) (hj : j < ms.length) :
    (byteOfBits ms).testBit (7 - j) = ms.getD j false := by
  unfold byteOfBits
  rw [Nat.testBit_shiftLeft]
  have hle : 8 - ms.length ≤ 7 - j := by omega
  rw [decide_eq_true hle, Bool.true_and, bitVal_testBit,
    show 7 - j - (8 - ms.length) = ms.length - 1 - j from by omega, if_pos (by omega),
    show ms.length - 1 - (ms.length - 1 - j) = j from by omega]

theorem packBits_testBit (bs : List Bool) (k : ℕ) (hk : k < bs.length) :
    ((packBits bs).getD (k / 8) 0).testBit (7 - k % 8) = bs.getD k false := by
  generalize hn : bs.length = n
  induction n using Nat.strong_induction_on generalizing bs k with
  | _ n ih =>
    rcases Nat.lt_or_ge n 8 with h8 | h8
    · have hlt : bs.length < 8 := by omega
      have hkn : k < n := by omega
      have hne : bs ≠ [] := by
        intro hc
        rw [hc] at hk
        simp at hk
      rw [packBits_short bs hne hlt,
        show k / 8 = 0 from by omega,
        show ([byteOfBits bs]).getD 0 0 = byteOfBits bs from rfl,
        show k % 8 = k from by omega]
      exact byteOfBits_testBit bs k (by omega) hk
    · have h8b : 8 ≤ bs.length := by omega
      rw [packBits_of_le bs h8b]
      rcases Nat.lt_or_ge k 8 with hk8 | hk8
      · rw [show k / 8 = 0 from by omega,
          show (byteOfBits (bs.take 8) :: packBits (bs.drop 8)).getD 0 0
            = byteOfBits (bs.take 8) from rfl,
          show k % 8 = k from by omega]
        have hkt : k < (bs.take 8).length := by
          rw [List.length_take]
          omega
        rw [byteOfBits_testBit _ k (by rw [List.length_take]; omega) hkt,
          List.getD_eq_getElem?_getD, List.getD_eq_getElem?_getD, List.getElem?_take,
          if_pos hk8]
      · rw [show k / 8 = (k - 8) / 8 + 1 from by omega,
          show (byteOfBits (bs.take 8) :: packBits (bs.drop 8)).getD ((k - 8) / 8 + 1) 0
            = (packBits (bs.drop 8)).getD ((k - 8) / 8) 0 from rfl,
          show k % 8 = (k - 8) % 8 from by omega]
        have hlen : (bs.drop 8).length = n - 8 := by rw [List.length_drop, hn]
        have hkd : k - 8 < (bs.drop 8).length := by
          rw [hlen]
          omega
        rw [ih (n - 8) (by omega) (bs.drop 8) (k - 8) hkd hlen,
          List.getD_eq_getElem?_getD, List.getD_eq_getElem?_getD, List.getElem?_drop,
          show 8 + (k - 8) = k from by omega]

theorem visitOrder_getElem (w h x y : ℕ) (hx : x < w) (hy : y < h) :
    (visitOrder w h)[x * h + y]? = some (x, y) := by
  induction w with
  | zero => omega
  | succ w ih =>
    have hlen : ((List.range w).flatMap fun a => (List.range h).map fun b => (a, b)).length
        = w * h := by
      have hv := visitOrder_length w h
      unfold visitOrder at hv
      exact hv
    unfold visitOrder
    rw [List.range_succ, List.flatMap_append]
    rcases Nat.lt_or_ge x w with hxw | hxw
    · rw [List.getElem?_append_left (by
        rw [hlen]
        calc x * h + y < (x + 1) * h := by rw [Nat.succ_mul]; omega
          _ ≤ w * h := Nat.mul_le_mul_right h (by omega))]
      have hres := ih hxw
      unfold visitOrder at hres
      exact hres
    · have hxe : x = w := by omega
      rw [hxe]
      rw [List.getElem?_append_right (by rw [hlen]; omega)]
      rw [hlen, show w * h + y - w * h = y from by omega]
      rw [show ([w].flatMap fun a => (List.range h).map fun b => (a, b))
          = (List.range h).map fun b => (w, b) from by simp]
      rw [List.getElem?_map, List.getElem?_range hy]
      rfl

/-- C8: the bit encoded for the pixel visited at position
`k = x * height + y` (column-major, the source's visit order) is set in
plane 0 exactly when `0.2126 r + 0.7152 g + 0.0722 b > 150`, and — when
the descriptor supports a second plane — set in plane 1 exactly when
`r > 150` and `g < 150`; both read off the combined buffer
`get_pixel_data` (plane 1 starts at byte `ceil(width*height/8)`). -/
theorem C8_pixel_thresholds (device : DeviceEntry) (pixels : ℕ → ℕ → RGB) (x y : ℕ)
    (hx : x < device.width) (hy : y < device.height) :
    (((get_pixel_data device pixels).getD ((x * device.height + y) / 8) 0).testBit
        (7 - (x * device.height + y) % 8)
      = decide (lum_threshold < luminance (pixels x y)))
    ∧ (device.red = true →
        (((get_pixel_data device pixels).getD
            ((device.width * device.height + 7) / 8 + (x * device.height + y) / 8) 0).testBit
          (7 - (x * device.height + y) % 8)
        = decide (red_threshold < (pixels x y).r ∧ (pixels x y).g < red_threshold))) := by
  set k := x * device.height + y with hkdef
  have hk : k < device.width * device.height := by
    calc k < x * device.height + device.height := by omega
      _ = (x + 1) * device.height := by ring
      _ ≤ device.width * device.height := Nat.mul_le_mul_right _ (by omega)
  have hbl : ((visitOrder device.width device.height).map
        fun q => blackBit (pixels q.1 q.2)).getD k false = blackBit (pixels x y) := by
    rw [List.getD_eq_getElem?_getD, List.getElem?_map, visitOrder_getElem _ _ x y hx hy,
      Option.map_some', Option.getD_some]
  have hrl : ((visitOrder device.width device.height).map
        fun q => redBit (pixels q.1 q.2)).getD k false = redBit (pixels x y) := by
    rw [List.getD_eq_getElem?_getD, List.getElem?_map, visitOrder_getElem _ _ x y hx hy,
      Option.map_some', Option.getD_some]
  have hlen0 : (plane0 device pixels).length = (device.width * device.height + 7) / 8 := by
    rw [plane0_eq, packBits_length, List.length_map, visitOrder_length]
  have hkdiv : k / 8 < (device.width * device.height + 7) / 8 := by omega
  have hp0 : (get_pixel_data device pixels).getD (k / 8) 0
      = (plane0 device pixels).getD (k / 8) 0 := by
    unfold get_pixel_data
    cases hr : device.red
    · rw [if_neg Bool.false_ne_true]
    · rw [if_pos rfl, List.getD_eq_getElem?_getD, List.getD_eq_getElem?_getD,
        List.getElem?_append_left (by rw [hlen0]; exact hkdiv)]
  constructor
  · rw [hp0, plane0_eq,
      packBits_testBit _ k (by rw [List.length_map, visitOrder_length]; exact hk), hbl]
    rfl
  · intro hr
    have hp1 : (get_pixel_data device pixels).getD
          ((device.width * device.height + 7) / 8 + k / 8) 0
        = (plane1 device pixels).getD (k / 8) 0 := by
      unfold get_pixel_data
      rw [if_pos hr, List.getD_eq_getElem?_getD, List.getD_eq_getElem?_getD,
        List.getElem?_append_right (by rw [hlen0]; omega), hlen0,
        show (device.width * device.height + 7) / 8 + k / 8
            - (device.width * device.height + 7) / 8 = k / 8 from by omega]
    rw [hp1, plane1_eq,
      packBits_testBit _ k (by rw [List.length_map, visitOrder_length]; exact hk), hrl]
    rfl

/-- C8 witness: a 2-by-2 red-capable device with a uniform dark
red-dominant pixel map, read at pixel (1, 0). -/
theorem C8_pixel_thresholds_witness :
    (((get_pixel_data devTest pixDarkRed).getD ((1 * devTest.height + 0) / 8) 0).testBit
        (7 - (1 * devTest.height + 0) % 8)
      = decide (lum_threshold < luminance (pixDarkRed 1 0)))
    ∧ (devTest.red = true →
        (((get_pixel_data devTest pixDarkRed).getD
            ((devTest.width * devTest.height + 7) / 8 + (1 * devTest.height + 0) / 8) 0).testBit
          (7 - (1 * devTest.height + 0) % 8)
        = decide (red_threshold < (pixDarkRed 1 0).r ∧ (pixDarkRed 1 0).g < red_threshold))) :=
  C8_pixel_thresholds devTest pixDarkRed 1 0 (by decide) (by decide)

/-! ## C4: traversal order -/

theorem C4_counterexample : ¬ ClaimC4 := by
  intro hcl
  have hb1 : blackBit ⟨255, 255, 255⟩ = true := by
    simp only [blackBit, decide_eq_true_eq]
    unfold luminance lum_threshold
    norm_num
  have hb0 : blackBit ⟨0, 0, 0⟩ = false := by
    simp only [blackBit, decide_eq_false_iff_not]
    unfold luminance lum_threshold
    norm_num
  have hbpix : ∀ a b : ℕ, blackBit (pixWhite00 a b) = decide (a = 0 ∧ b = 0) := by
    intro a b
    unfold pixWhite00
    by_cases hab : a = 0 ∧ b = 0
    · rw [if_pos hab, hb1]
      simp [hab]
    · rw [if_neg hab, hb0]
      simp [hab]
  have h := hcl devTestMirror pixWhite00
  rw [show devTestMirror.red = false from rfl, if_neg Bool.false_ne_true,
    List.append_nil] at h
  have hL : get_pixel_data devTestMirror pixWhite00 = [128] := by
    unfold get_pixel_data
    rw [show devTestMirror.red = false from rfl, if_neg Bool.false_ne_true, plane0_eq]
    simp only [hbpix]
    decide
  have hR : packBits ((specVisitOrder devTestMirror).map
      fun q => blackBit (pixWhite00 q.1 q.2)) = [64] := by
    simp only [hbpix]
    decide
  rw [hL, hR] at h
  simp at h

/-- C4 (amended): the encoder visits pixels in column-major order — for
each column `x` from 0 to width−1 all rows `y` from 0 to height−1 in
increasing order — packing that bit sequence MSB-first, and the
descriptor's `mirror_x` flag has no effect on the traversal or the
output. -/
theorem C4_column_major_traversal (device : DeviceEntry) (pixels : ℕ → ℕ → RGB) (b : Bool) :
    get_pixel_data device pixels
      = packBits ((List.range device.width).flatMap fun x =>
            (List.range device.height).map fun y => blackBit (pixels x y))
        ++ (if device.red then
              packBits ((List.range device.width).flatMap fun x =>
                (List.range device.height).map fun y => redBit (pixels x y))
            else [])
    ∧ get_pixel_data { device with mirror_x := b } pixels = get_pixel_data device pixels := by
  constructor
  · have hbits : (visitOrder device.width device.height).map (fun q => blackBit (pixels q.1 q.2))
        = (List.range device.width).flatMap fun x =>
            (List.range device.height).map fun y => blackBit (pixels x y) := by
      unfold visitOrder
      rw [List.map_flatMap]
      simp [List.map_map, Function.comp_def]
    have hbits2 : (visitOrder device.width device.height).map (fun q => redBit (pixels q.1 q.2))
        = (List.range device.width).flatMap fun x =>
            (List.range device.height).map fun y => redBit (pixels x y) := by
      unfold visitOrder
      rw [List.map_flatMap]
      simp [List.map_map, Function.comp_def]
    unfold get_pixel_data
    cases hr : device.red
    · rw [if_neg Bool.false_ne_true, if_neg Bool.false_ne_true, plane0_eq, hbits,
        List.append_nil]
    · rw [if_pos rfl, if_pos rfl, plane0_eq, plane1_eq, hbits, hbits2]
  · rfl

/-! ## C3: the image chunk index -/

theorem imgSent_nil : imgSent [] = [] := rfl

theorem imgSent_cons_cmd (x : List ℕ) (r : List (Chan × List ℕ)) :
    imgSent ((Chan.cmd, x) :: r) = imgSent r := by
  simp [imgSent]

theorem imgSent_cons_img (x : List ℕ) (r : List (Chan × List ℕ)) :
    imgSent ((Chan.img, x) :: r) = x :: imgSent r := by
  simp [imgSent]

theorem write_image_loop_img_indices (ps : ℕ) (imgp : List ℕ) :
    ∀ (responses : List (List ℕ)) (st : Phase) (part count : ℕ),
      ∃ k, imgSent (write_image_loop ps imgp st part count responses).1
            = (List.range' count k).map (make_img_packet ps imgp) := by
  intro responses
  induction responses with
  | nil =>
    intro st part count
    cases st
    · exact ⟨0, by simp [write_image_loop, imgSent]⟩
    · exact ⟨0, by simp [write_image_loop, imgSent]⟩
    · exact ⟨0, by simp [write_image_loop, imgSent]⟩
    · exact ⟨1, by simp [write_image_loop, imgSent, List.range']⟩
  | cons data rest ih =>
    intro st part count
    cases st
    case START =>
      simp only [write_image_loop]
      split
      · exact ⟨0, by simp [imgSent]⟩
      · obtain ⟨k, hk⟩ := ih .SIZE_DATA part count
        exact ⟨k, by simp [imgSent_cons_cmd, hk]⟩
    case SIZE_DATA =>
      simp only [write_image_loop]
      split
      · exact ⟨0, by simp [imgSent]⟩
      · obtain ⟨k, hk⟩ := ih .IMAGE part count
        exact ⟨k, by simp [imgSent_cons_cmd, hk]⟩
    case IMAGE =>
      simp only [write_image_loop]
      split
      · exact ⟨0, by simp [imgSent]⟩
      · obtain ⟨k, hk⟩ := ih .IMAGE_DATA part count
        exact ⟨k, by simp [imgSent_cons_cmd, hk]⟩
    case IMAGE_DATA =>
      simp only [write_image_loop]
      split
      · exact ⟨1, by simp [imgSent, List.range']⟩
      · obtain ⟨k, hk⟩ := ih .IMAGE_DATA (fromBytesLE ((data.drop 2).take 4)) (count + 1)
        exact ⟨k + 1, by simp [imgSent_cons_img, hk, List.range'_succ]⟩

theorem C3_counterexample : ¬ ClaimC3 := by
  intro h
  have h2 := h 1 [9] [[1, 0xF4, 0], [2], [5, 0, 7, 0, 0, 0], [5, 0, 8, 0, 0, 0]] 2
    [0, 0, 0, 0, 9] (by decide)
  exact absurd h2 (by decide)

/-- C3 (amended): the index written into each image packet is a sequential
counter — in any run the j-th image packet sent is
`make_img_packet(j)` for j = 0, 1, 2, … — regardless of the chunk index
carried in the device's responses; the device-reported index is parsed
into `part` but never used to choose the next chunk. -/
theorem C3_sequential_chunk_index (ps : ℕ) (imgp : List ℕ) (responses : List (List ℕ)) :
    imgSent (write_image_run ps imgp responses).1
      = (List.range (imgSent (write_image_run ps imgp responses).1).length).map
          (make_img_packet ps imgp) := by
  obtain ⟨k, hk⟩ := write_image_loop_img_indices ps imgp responses .START 0 0
  unfold write_image_run
  rw [hk, List.length_map, List.length_range', List.range_eq_range']

/-! ## C1 and C10: error handling of `update_image` -/

theorem write_image_run_start_fail (ps : ℕ) (imgp : List ℕ) (data : List ℕ)
    (rest : List (List ℕ))
    (h : data.length < 3 ∨ data.getD 0 0 ≠ 0x01 ∨ data.getD 1 0 ≠ 0xF4
      ∨ data.getD 2 0 ≠ 0x00) :
    write_image_run ps imgp (data :: rest) = ([(Chan.cmd, make_cmd_packet 1 ps)], true) := by
  unfold write_image_run
  simp only [write_image_loop]
  rw [if_pos h]

theorem update_image_eval (device : DeviceEntry) (pixels : ℕ → ℕ → RGB) (env : Env) :
    update_image device pixels env
      = (env.connect_ok && decide (env.n_chars = 3) && env.start_notify_ok
          && env.stop_notify_ok, false) := by
  rcases env with ⟨co, nc, sn, st, rs⟩
  cases co
  · simp [update_image]
  · by_cases h3 : nc = 3
    · cases sn
      · simp [update_image, update_image_body, h3]
      · cases st
        · simp [update_image, update_image_body, h3]
        · simp [update_image, update_image_body, h3]
    · simp [update_image, update_image_body, h3]

theorem C1_counterexample : ¬ ClaimC1 := by
  intro h
  have h2 := (h devTest pixDarkRed ⟨true, 3, true, true, [[1, 0, 0]]⟩ [1, 0, 0] [] rfl
    (by decide)).2
  rw [update_image_eval] at h2
  simp at h2

/-- C1 (amended): a Start response failing the prefix/length check does
stop the machine in the Start phase — the start packet is the only packet
ever sent and the loop raises internally — but that exception is caught
inside `write_image`, so `update_image` still reports success whenever the
connection, characteristic count, and notify setup/teardown succeeded;
its result is entirely independent of the device's responses. -/
theorem C1_start_failure_halts (device : DeviceEntry) (pixels : ℕ → ℕ → RGB) (env : Env)
    (data : List ℕ) (rest : List (List ℕ))
    (hr : env.responses = data :: rest)
    (hbad : data.length < 3 ∨ data.getD 0 0 ≠ 0x01 ∨ data.getD 1 0 ≠ 0xF4
      ∨ data.getD 2 0 ≠ 0x00) :
    write_image_run (packet_size device) (get_pixel_data device pixels) env.responses
        = ([(Chan.cmd, make_cmd_packet 1 (packet_size device))], true)
    ∧ (update_image device pixels env).1
        = (env.connect_ok && decide (env.n_chars = 3) && env.start_notify_ok
            && env.stop_notify_ok) := by
  refine ⟨?_, ?_⟩
  · rw [hr]
    exact write_image_run_start_fail _ _ data rest hbad
  · rw [update_image_eval]

/-- C1 witness: all outer steps succeed while the device answers the Start
packet with `0x01 0x00 0x00`. -/
theorem C1_start_failure_halts_witness :
    write_image_run (packet_size devTest) (get_pixel_data devTest pixDarkRed)
        (Env.mk true 3 true true [[1, 0, 0]]).responses
      = ([(Chan.cmd, make_cmd_packet 1 (packet_size devTest))], true)
    ∧ (update_image devTest pixDarkRed (Env.mk true 3 true true [[1, 0, 0]])).1
      = ((Env.mk true 3 true true [[1, 0, 0]]).connect_ok
          && decide ((Env.mk true 3 true true [[1, 0, 0]]).n_chars = 3)
          && (Env.mk true 3 true true [[1, 0, 0]]).start_notify_ok
          && (Env.mk true 3 true true [[1, 0, 0]]).stop_notify_ok) :=
  C1_start_failure_halts devTest pixDarkRed (Env.mk true 3 true true [[1, 0, 0]])
    [1, 0, 0] [] rfl (by decide)

theorem C10_counterexample : ¬ ClaimC10 := by
  intro h
  have hrun : (write_image_run (packet_size devTest) (get_pixel_data devTest pixDarkRed)
      (Env.mk true 3 true true [[2, 2, 2]]).responses).2 = true := by
    rw [show (Env.mk true 3 true true [[2, 2, 2]]).responses = [[2, 2, 2]] from rfl,
      write_image_run_start_fail _ _ [2, 2, 2] [] (by decide)]
  have h2 := h devTest pixDarkRed (Env.mk true 3 true true [[2, 2, 2]]) hrun
  rw [update_image_eval] at h2
  simp at h2

/-- C10 (amended): `update_image` is exception-total — for every
environment it returns a boolean, equal to the conjunction of the outer
steps succeeding (connection, exactly 3 characteristics, notify start and
stop), independent of the transfer's response script (transfer-protocol
errors are swallowed inside `write_image` and still yield `True`), and on
every exit path the client ends disconnected. -/
theorem C10_update_image_total (device : DeviceEntry) (pixels : ℕ → ℕ → RGB) (env : Env) :
    update_image device pixels env
      = (env.connect_ok && decide (env.n_chars = 3) && env.start_notify_ok
          && env.stop_notify_ok, false) :=
  update_image_eval device pixels env

end Gicisky
